import Mathlib

/-!
Verification of the options-pricing engine (`options_pricing.py`).

The Python module is embedded shallowly: every pricing routine becomes a Lean
function over the reals (floating-point arithmetic is idealised as exact real
arithmetic), the `option_type` string argument stays a `String`, numpy's
random draws become explicit stream arguments `z : ℕ → ℝ`, and the in-place
array loops of the lattice pricer and the path simulator become explicit
iterations on functions `ℕ → ℝ`.  `scipy.stats.norm.cdf`/`pdf` are modelled by
the genuine standard normal density and its set integral.
-/

open MeasureTheory Set

namespace OptionsPricing

/-- Standard normal density, modelling `scipy.stats.norm.pdf`. -/
noncomputable def normPdf (x : ℝ) : ℝ :=
  Real.exp (-(x ^ 2) / 2) / Real.sqrt (2 * Real.pi)

/-- Standard normal cumulative distribution, modelling `scipy.stats.norm.cdf`. -/
noncomputable def normCdf (x : ℝ) : ℝ :=
  ∫ t in Set.Iic x, normPdf t

lemma normPdf_eq (x : ℝ) :
    normPdf x = Real.exp (-(1 / 2 : ℝ) * x ^ 2) * (Real.sqrt (2 * Real.pi))⁻¹ := by
  unfold normPdf
  rw [div_eq_mul_inv]
  ring_nf

lemma normPdf_integrable : Integrable normPdf := by
  have h : normPdf = fun x => Real.exp (-(1 / 2 : ℝ) * x ^ 2) * (Real.sqrt (2 * Real.pi))⁻¹ :=
    funext normPdf_eq
  rw [h]
  exact (integrable_exp_neg_mul_sq (by norm_num)).mul_const _

lemma normPdf_integral : (∫ x, normPdf x) = 1 := by
  have h : (∫ x, normPdf x)
      = (∫ x, Real.exp (-(1 / 2 : ℝ) * x ^ 2)) * (Real.sqrt (2 * Real.pi))⁻¹ := by
    rw [← integral_mul_right]
    exact integral_congr_ae (Filter.Eventually.of_forall fun x => normPdf_eq x)
  rw [h, integral_gaussian]
  have h2 : Real.pi / (1 / 2 : ℝ) = 2 * Real.pi := by ring
  rw [h2]
  exact mul_inv_cancel₀ (Real.sqrt_ne_zero'.mpr (by positivity))

lemma normPdf_even (x : ℝ) : normPdf (-x) = normPdf x := by
  unfold normPdf
  rw [neg_sq]

lemma normCdf_add_neg (x : ℝ) : normCdf x + normCdf (-x) = 1 := by
  have h1 : normCdf (-x) = ∫ t in Set.Ioi x, normPdf t := by
    have h2 : (∫ t in Set.Iic (-x), normPdf t) = ∫ t in Set.Iic (-x), normPdf (-t) := by
      simp only [normPdf_even]
    have h3 := integral_comp_neg_Iic (-x) normPdf
    rw [neg_neg] at h3
    calc normCdf (-x) = ∫ t in Set.Iic (-x), normPdf t := rfl
      _ = ∫ t in Set.Iic (-x), normPdf (-t) := h2
      _ = ∫ t in Set.Ioi x, normPdf t := h3
  calc normCdf x + normCdf (-x)
      = (∫ t in Set.Iic x, normPdf t) + ∫ t in Set.Ioi x, normPdf t := by rw [h1]; rfl
    _ = ∫ t, normPdf t :=
        intervalIntegral.integral_Iic_add_Ioi
          normPdf_integrable.integrableOn normPdf_integrable.integrableOn
    _ = 1 := normPdf_integral

lemma normCdf_neg (x : ℝ) : normCdf (-x) = 1 - normCdf x := by
  have h := normCdf_add_neg x
  linarith

/-- Intrinsic payoff of an option at stock price `sp`; the Python code inlines
this `if option_type == 'call'` branch everywhere it needs a payoff. -/
noncomputable def payoff (K : ℝ) (option_type : String) (sp : ℝ) : ℝ :=
  if option_type = "call" then max (sp - K) 0 else max (K - sp) 0

/-- `d1` of `OptionsPricing.black_scholes` (division by zero is total in ℝ,
mirroring that the Python code performs the division unguarded). -/
noncomputable def d1 (S K T r sigma : ℝ) : ℝ :=
  (Real.log (S / K) + (r + sigma ^ 2 / 2) * T) / (sigma * Real.sqrt T)

/-- `d2` of `OptionsPricing.black_scholes`. -/
noncomputable def d2 (S K T r sigma : ℝ) : ℝ :=
  d1 S K T r sigma - sigma * Real.sqrt T

/-- Embedding of `OptionsPricing.black_scholes`. -/
noncomputable def black_scholes (S K T r sigma : ℝ) (option_type : String) : ℝ :=
  if T ≤ 0 then payoff K option_type S
  else if option_type = "call" then
    S * normCdf (d1 S K T r sigma)
      - K * Real.exp (-(r * T)) * normCdf (d2 S K T r sigma)
  else
    K * Real.exp (-(r * T)) * normCdf (-(d2 S K T r sigma))
      - S * normCdf (-(d1 S K T r sigma))

/-- Up factor `u = exp(sigma * sqrt(dt))` with `dt = T/N`,
from `OptionsPricing.binomial_tree_american`. -/
noncomputable def binU (T sigma : ℝ) (N : ℕ) : ℝ :=
  Real.exp (sigma * Real.sqrt (T / N))

/-- Down factor `d = 1/u`. -/
noncomputable def binD (T sigma : ℝ) (N : ℕ) : ℝ :=
  1 / binU T sigma N

/-- Risk-neutral up probability `p = (exp(r*dt) - d) / (u - d)`. -/
noncomputable def binP (T r sigma : ℝ) (N : ℕ) : ℝ :=
  (Real.exp (r * (T / N)) - binD T sigma N) / (binU T sigma N - binD T sigma N)

/-- One-step discount factor `exp(-r*dt)`. -/
noncomputable def binDisc (T r : ℝ) (N : ℕ) : ℝ :=
  Real.exp (-(r * (T / N)))

/-- Stock price at node `(step, i)` of the lattice: `S * u^(step-i) * d^i`;
the terminal asset prices of the Python code are `nodePrice S T sigma N N i`. -/
noncomputable def nodePrice (S T sigma : ℝ) (N step i : ℕ) : ℝ :=
  S * binU T sigma N ^ (step - i) * binD T sigma N ^ i

/-- One backward-induction sweep of the Python loop at time level `step`:
the in-place update reads, at index `i ≤ step`, the previous level's values at
`i` and `i+1` (the inner `for i in range(step+1)` writes index `i` strictly
after reading it and before index `i+1` is ever written, so every read sees
the level-`step+1` value); indices above `step` are left untouched. -/
noncomputable def binStep (S K T r sigma : ℝ) (N : ℕ) (option_type : String)
    (step : ℕ) (v : ℕ → ℝ) : ℕ → ℝ :=
  fun i =>
    if i ≤ step then
      max (binDisc T r N * (binP T r sigma N * v i + (1 - binP T r sigma N) * v (i + 1)))
        (payoff K option_type (nodePrice S T sigma N step i))
    else v i

/-- The option-value array after `k` iterations of the backward loop
(`k = 0` is the terminal layer; iteration `k+1` processes `step = N-(k+1)`,
so the full loop `for step in range(N-1, -1, -1)` is `binVals … N`). -/
noncomputable def binVals (S K T r sigma : ℝ) (N : ℕ) (option_type : String) :
    ℕ → ℕ → ℝ
  | 0 => fun i => payoff K option_type (nodePrice S T sigma N N i)
  | k + 1 => binStep S K T r sigma N option_type (N - (k + 1))
      (binVals S K T r sigma N option_type k)

/-- Embedding of `OptionsPricing.binomial_tree_american` (`N : ℕ`, so the
Python guard `N <= 0` is the guard `N = 0`). -/
noncomputable def binomial_tree_american (S K T r sigma : ℝ) (N : ℕ)
    (option_type : String) : ℝ :=
  if T ≤ 0 ∨ N = 0 then payoff K option_type S
  else binVals S K T r sigma N option_type N 0

/-- Reference backward recursion, following the spec's words: the value at node
`(step, i)` with `step = N - k` is the payoff at the terminal layer (`k = 0`),
and otherwise the max of the discounted risk-neutral expectation of the two
child values and the immediate exercise payoff at that node's stock price
`S * u^(step-i) * d^i`. -/
noncomputable def binRefVal (S K T r sigma : ℝ) (N : ℕ) (option_type : String) :
    ℕ → ℕ → ℝ
  | 0 => fun i =>
      payoff K option_type (S * binU T sigma N ^ (N - i) * binD T sigma N ^ i)
  | k + 1 => fun i =>
      max (binDisc T r N *
            (binP T r sigma N * binRefVal S K T r sigma N option_type k i +
              (1 - binP T r sigma N) * binRefVal S K T r sigma N option_type k (i + 1)))
        (payoff K option_type
          (S * binU T sigma N ^ (N - (k + 1) - i) * binD T sigma N ^ i))

/-- Root value of the reference recursion of the spec. -/
noncomputable def binomialRefSpec (S K T r sigma : ℝ) (N : ℕ)
    (option_type : String) : ℝ :=
  binRefVal S K T r sigma N option_type N 0

/-- Embedding of `OptionsPricing.monte_carlo_simulation`; the `num_simulations`
standard-normal draws `np.random.standard_normal(num_simulations)` become the
explicit stream `z`. -/
noncomputable def monte_carlo_simulation (S T r sigma : ℝ) (M : ℕ) (z : ℕ → ℝ) :
    List ℝ :=
  if T ≤ 0 then List.replicate M S
  else (List.range M).map fun i =>
    S * Real.exp ((r - sigma ^ 2 / 2) * T + sigma * Real.sqrt T * z i)

/-- Embedding of `OptionsPricing.monte_carlo_simulation` that makes numpy's
global random state explicit: `g` is the global stream of standard-normal
draws and `pos` the stream position before the call; the call consumes `M`
draws (when `T > 0`) and returns the advanced position alongside its result.
The Python signature has no seed or generator parameter, so successive calls
read successive segments of `g`. -/
noncomputable def monte_carlo_simulation_global (S T r sigma : ℝ) (M : ℕ)
    (g : ℕ → ℝ) (pos : ℕ) : List ℝ × ℕ :=
  if T ≤ 0 then (List.replicate M S, pos)
  else
    ((List.range M).map fun i =>
      S * Real.exp ((r - sigma ^ 2 / 2) * T + sigma * Real.sqrt T * g (pos + i)),
      pos + M)

/-- The grid `np.zeros((num_simulations, days))` after `paths[:, 0] = S`:
column `0` holds `S`, every other column holds `0`. -/
noncomputable def pathsInit (S : ℝ) : ℕ → ℕ → ℝ :=
  fun _ t => if t = 0 then S else 0

/-- The grid after the first `n` iterations of the column loop
`for t in range(1, days)` of `OptionsPricing.monte_carlo_price_paths`:
iteration `n+1` overwrites column `n+1` with column `n` times the lognormal
update `exp((r - sigma^2/2)*dt + sigma*sqrt(dt)*z)`, `dt = 1/252`, drawing the
fresh standard-normal vector `z (n+1)` for that column. -/
noncomputable def pathsLoop (S r sigma : ℝ) (z : ℕ → ℕ → ℝ) (g : ℕ → ℕ → ℝ) :
    ℕ → ℕ → ℕ → ℝ
  | 0 => g
  | n + 1 => fun j t =>
      if t = n + 1 then
        pathsLoop S r sigma z g n j n *
          Real.exp ((r - sigma ^ 2 / 2) * (1 / 252) +
            sigma * Real.sqrt (1 / 252) * z (n + 1) j)
      else pathsLoop S r sigma z g n j t

/-- Embedding of `OptionsPricing.monte_carlo_price_paths`: run the column loop
for its `days - 1` iterations on the initial grid and read the resulting
`num_simulations × days` array row by row. -/
noncomputable def monte_carlo_price_paths (S r sigma : ℝ) (days M : ℕ)
    (z : ℕ → ℕ → ℝ) : List (List ℝ) :=
  (List.range M).map fun j => (List.range days).map fun t =>
    pathsLoop S r sigma z (pathsInit S) (days - 1) j t

/-- Result record of `OptionsPricing.calculate_greeks`. -/
structure Greeks where
  delta : ℝ
  gamma : ℝ
  theta : ℝ
  vega : ℝ
  rho : ℝ

/-- Raw Black-Scholes delta as `calculate_greeks` computes it before returning. -/
noncomputable def delta_raw (S K T r sigma : ℝ) (option_type : String) : ℝ :=
  if option_type = "call" then normCdf (d1 S K T r sigma)
  else normCdf (d1 S K T r sigma) - 1

/-- Raw annualized theta as `calculate_greeks` computes it before the `/365`. -/
noncomputable def theta_raw (S K T r sigma : ℝ) (option_type : String) : ℝ :=
  if option_type = "call" then
    -S * normPdf (d1 S K T r sigma) * sigma / (2 * Real.sqrt T) -
      r * K * Real.exp (-(r * T)) * normCdf (d2 S K T r sigma)
  else
    -S * normPdf (d1 S K T r sigma) * sigma / (2 * Real.sqrt T) +
      r * K * Real.exp (-(r * T)) * normCdf (-(d2 S K T r sigma))

/-- Raw rho as `calculate_greeks` computes it before the `/100`. -/
noncomputable def rho_raw (S K T r sigma : ℝ) (option_type : String) : ℝ :=
  if option_type = "call" then
    K * T * Real.exp (-(r * T)) * normCdf (d2 S K T r sigma)
  else
    -(K * T * Real.exp (-(r * T)) * normCdf (-(d2 S K T r sigma)))

/-- Raw gamma as `calculate_greeks` computes it (returned unrescaled). -/
noncomputable def gamma_raw (S K T r sigma : ℝ) : ℝ :=
  normPdf (d1 S K T r sigma) / (S * sigma * Real.sqrt T)

/-- Raw vega as `calculate_greeks` computes it before the `/100`. -/
noncomputable def vega_raw (S K T r sigma : ℝ) : ℝ :=
  S * normPdf (d1 S K T r sigma) * Real.sqrt T

/-- Embedding of `OptionsPricing.calculate_greeks`. -/
noncomputable def calculate_greeks (S K T r sigma : ℝ) (option_type : String) :
    Greeks :=
  if T ≤ 0 then ⟨0, 0, 0, 0, 0⟩
  else
    { delta :=
        if option_type = "call" then normCdf (d1 S K T r sigma)
        else normCdf (d1 S K T r sigma) - 1
      gamma := normPdf (d1 S K T r sigma) / (S * sigma * Real.sqrt T)
      theta :=
        (if option_type = "call" then
          -S * normPdf (d1 S K T r sigma) * sigma / (2 * Real.sqrt T) -
            r * K * Real.exp (-(r * T)) * normCdf (d2 S K T r sigma)
        else
          -S * normPdf (d1 S K T r sigma) * sigma / (2 * Real.sqrt T) +
            r * K * Real.exp (-(r * T)) * normCdf (-(d2 S K T r sigma))) / 365
      vega := S * normPdf (d1 S K T r sigma) * Real.sqrt T / 100
      rho :=
        (if option_type = "call" then
          K * T * Real.exp (-(r * T)) * normCdf (d2 S K T r sigma)
        else
          -(K * T * Real.exp (-(r * T)) * normCdf (-(d2 S K T r sigma)))) / 100 }

/-- Days in a month, as `datetime.strptime` validates `%d` against `%Y-%m`. -/
def daysInMonth (y m : ℕ) : ℕ :=
  if m = 2 then (if (y % 4 = 0 ∧ ¬ y % 100 = 0) ∨ y % 400 = 0 then 29 else 28)
  else if m = 4 ∨ m = 6 ∨ m = 9 ∨ m = 11 then 30 else 31

/-- Split a character list at every dash, as `s.split('-')` does. -/
def splitDash : List Char → List (List Char)
  | [] => [[]]
  | c :: rest =>
    if c = '-' then [] :: splitDash rest
    else
      match splitDash rest with
      | [] => [[c]]
      | g :: gs => (c :: g) :: gs

/-- Read a nonempty all-digit field as a number, else fail. -/
def digitsToNat (cs : List Char) : Option ℕ :=
  if cs ≠ [] ∧ cs.all (fun c => c.isDigit) then
    some (cs.foldl (fun a c => a * 10 + (c.toNat - 48)) 0)
  else none

/-- Model of `datetime.strptime(s, '%Y-%m-%d')`: three dash-separated decimal
fields forming a valid calendar date, else a parse failure (`none`, standing
for the `ValueError` the Python call raises). -/
def parseDate (s : String) : Option (ℕ × ℕ × ℕ) :=
  match splitDash s.toList with
  | [ys, ms, ds] =>
    match digitsToNat ys, digitsToNat ms, digitsToNat ds with
    | some y, some m, some d =>
      if 1 ≤ m ∧ m ≤ 12 ∧ 1 ≤ d ∧ d ≤ daysInMonth y m then some (y, m, d) else none
    | _, _, _ => none
  | _ => none

/-- Ordinal day number of a calendar date, modelling `datetime` subtraction
(`(exp_date - today).days`). -/
def dateNum : ℕ × ℕ × ℕ → ℤ
  | (y, m, d) =>
    (365 * y + y / 4 - y / 100 + y / 400 : ℤ) +
      ([0, 0, 31, 59, 90, 120, 151, 181, 212, 243, 273, 304, 334].getD m 0 : ℤ) +
      (if ((y % 4 = 0 ∧ ¬ y % 100 = 0) ∨ y % 400 = 0) ∧ 2 < m then 1 else 0) + d

/-- Embedding of `OptionsPricing.days_to_expiration`; `today` stands for
`datetime.now()`.  The bare `except:` of the source catches the parse failure
inside the function and turns it into the return value `0`. -/
def days_to_expiration (s : String) (today : ℕ × ℕ × ℕ) : ℤ :=
  match parseDate s with
  | some e => max (dateNum e - dateNum today) 0
  | none => 0

lemma binVals_eq_binRefVal (S K T r sigma : ℝ) (N : ℕ) (option_type : String) :
    ∀ k, k ≤ N → ∀ i, i ≤ N - k →
      binVals S K T r sigma N option_type k i
        = binRefVal S K T r sigma N option_type k i := by
  intro k
  induction k with
  | zero => intro _ i _; rfl
  | succ k ih =>
    intro hk i hi
    have hk' : k ≤ N := Nat.le_of_succ_le hk
    have hi1 : i ≤ N - k := by omega
    have hi2 : i + 1 ≤ N - k := by omega
    show binStep S K T r sigma N option_type (N - (k + 1))
      (binVals S K T r sigma N option_type k) i = _
    unfold binStep
    rw [if_pos hi, ih hk' i hi1, ih hk' (i + 1) hi2]
    rfl

/-- C1: for positive market data and at least one step,
`binomial_tree_american` — the in-place backward-induction loop over the
lattice with `u = exp(sigma*sqrt(dt))`, `d = 1/u`, `p = (exp(r*dt)-d)/(u-d)`,
terminal prices `S*u^(N-i)*d^i` and the early-exercise max at every interior
node — returns exactly the root value of the reference recursion
`binomialRefSpec` written from the spec. -/
theorem binomial_tree_american_matches_reference (S K T r sigma : ℝ) (N : ℕ)
    (option_type : String) (hS : 0 < S) (hK : 0 < K) (hT : 0 < T)
    (hsig : 0 < sigma) (hN : 1 ≤ N) :
    binomial_tree_american S K T r sigma N option_type
      = binomialRefSpec S K T r sigma N option_type := by
  have hg : ¬ (T ≤ 0 ∨ N = 0) := by
    push_neg
    exact ⟨hT, by omega⟩
  unfold binomial_tree_american binomialRefSpec
  rw [if_neg hg]
  exact binVals_eq_binRefVal S K T r sigma N option_type N (le_refl N) 0 (by omega)

theorem binomial_tree_american_matches_reference_witness :
    (0 : ℝ) < 1 ∧ 1 ≤ 1 ∧
      binomial_tree_american 1 1 1 0 1 1 "call" = binomialRefSpec 1 1 1 0 1 1 "call" :=
  ⟨one_pos, le_refl 1,
    binomial_tree_american_matches_reference 1 1 1 0 1 1 "call"
      one_pos one_pos one_pos one_pos (le_refl 1)⟩

/-- C2: for S, K, T, sigma > 0 and any rate r, the Black-Scholes call price
minus the put price equals `S - K * exp(-r*T)` (put-call parity), exactly in
real arithmetic. -/
theorem black_scholes_put_call_parity (S K T r sigma : ℝ)
    (hS : 0 < S) (hK : 0 < K) (hT : 0 < T) (hsig : 0 < sigma) :
    black_scholes S K T r sigma "call" - black_scholes S K T r sigma "put"
      = S - K * Real.exp (-(r * T)) := by
  unfold black_scholes
  rw [if_neg (not_le.mpr hT), if_neg (not_le.mpr hT), if_pos rfl,
    if_neg (by decide : ¬ ("put" : String) = "call"),
    normCdf_neg (d1 S K T r sigma), normCdf_neg (d2 S K T r sigma)]
  ring

theorem black_scholes_put_call_parity_witness :
    (0 : ℝ) < 1 ∧
      black_scholes 1 1 1 0 1 "call" - black_scholes 1 1 1 0 1 "put"
        = 1 - 1 * Real.exp (-(0 * 1)) :=
  ⟨one_pos, black_scholes_put_call_parity 1 1 1 0 1 one_pos one_pos one_pos one_pos⟩

/-- C3 (code behavior at the failing input): with sigma = 0 and T = 1 > 0 the
pricer does not take the intrinsic early return; it evaluates `d1` as a
division by the zero denominator `sigma * sqrt T` (junk: `0` under the real
embedding's total division, NaN under IEEE floats) and still returns a plain
number — no error of any kind is raised, contradicting the claimed
`DomainError`. -/
theorem black_scholes_sigma_zero_returns_value :
    d1 1 1 1 0 0 = 0 ∧ black_scholes 1 1 1 0 0 "call" = 0 := by
  have hd1 : d1 1 1 1 0 0 = 0 := by unfold d1; norm_num
  have hd2 : d2 1 1 1 0 0 = 0 := by unfold d2; rw [hd1]; norm_num
  refine ⟨hd1, ?_⟩
  unfold black_scholes
  rw [if_neg (by norm_num : ¬ (1 : ℝ) ≤ 0), if_pos rfl, hd1, hd2]
  simp [Real.exp_zero]

/-- C6: whenever T ≤ 0 (and, for the lattice, also when the step count is 0,
the embedding of `N <= 0` for `N : ℕ`), both pricers return exactly the
intrinsic payoff `max(S-K,0)` for a call and `max(K-S,0)` otherwise. -/
theorem intrinsic_at_expiry (S K T r sigma : ℝ) (N : ℕ) (option_type : String)
    (hS : 0 < S) (hK : 0 < K) :
    (T ≤ 0 → black_scholes S K T r sigma option_type
        = if option_type = "call" then max (S - K) 0 else max (K - S) 0) ∧
    (T ≤ 0 ∨ N = 0 → binomial_tree_american S K T r sigma N option_type
        = if option_type = "call" then max (S - K) 0 else max (K - S) 0) := by
  constructor
  · intro h
    unfold black_scholes
    rw [if_pos h]
    rfl
  · intro h
    unfold binomial_tree_american
    rw [if_pos h]
    rfl

theorem intrinsic_at_expiry_witness :
    (0 : ℝ) < 1 ∧ (0 : ℝ) ≤ 0 ∧
      black_scholes 1 1 0 0 1 "call"
        = if ("call" : String) = "call" then max ((1 : ℝ) - 1) 0 else max (1 - 1) 0 :=
  ⟨one_pos, le_refl 0,
    (intrinsic_at_expiry 1 1 0 0 1 1 "call" one_pos one_pos).1 (le_refl 0)⟩

/-- C4: `monte_carlo_simulation` is a degenerate constant distribution when
randomness has no effect: for T ≤ 0 it returns exactly `num_simulations`
copies of S whatever the random stream, and for sigma = 0 with T > 0 every
entry equals exactly `S * exp(r*T)`. -/
theorem monte_carlo_simulation_degenerate (S T r sigma : ℝ) (M : ℕ) (z : ℕ → ℝ)
    (hM : 1 ≤ M) :
    (T ≤ 0 → monte_carlo_simulation S T r sigma M z = List.replicate M S) ∧
    (sigma = 0 → 0 < T →
      ∀ x ∈ monte_carlo_simulation S T r sigma M z, x = S * Real.exp (r * T)) := by
  constructor
  · intro h
    unfold monte_carlo_simulation
    rw [if_pos h]
  · intro hsig hT x hx
    unfold monte_carlo_simulation at hx
    rw [if_neg (not_le.mpr hT)] at hx
    simp only [List.mem_map, List.mem_range] at hx
    obtain ⟨i, _, hxe⟩ := hx
    rw [← hxe, hsig]
    norm_num

theorem monte_carlo_simulation_degenerate_witness :
    1 ≤ 1 ∧ (0 : ℝ) ≤ 0 ∧
      monte_carlo_simulation 1 0 0 1 1 (fun _ => 0) = List.replicate 1 1 :=
  ⟨le_refl 1, le_refl 0,
    (monte_carlo_simulation_degenerate 1 0 0 1 1 (fun _ => 0) (le_refl 1)).1 (le_refl 0)⟩

/-- C7: `calculate_greeks` returns all five Greeks equal to zero whenever
T ≤ 0; for T > 0 it returns theta as the raw annualized theta divided by 365,
vega as the raw vega divided by 100, rho as the raw rho divided by 100, and
delta and gamma unrescaled. -/
theorem calculate_greeks_scaling (S K T r sigma : ℝ) (option_type : String) :
    (T ≤ 0 → calculate_greeks S K T r sigma option_type = ⟨0, 0, 0, 0, 0⟩) ∧
    (0 < T → calculate_greeks S K T r sigma option_type =
      ⟨delta_raw S K T r sigma option_type, gamma_raw S K T r sigma,
        theta_raw S K T r sigma option_type / 365, vega_raw S K T r sigma / 100,
        rho_raw S K T r sigma option_type / 100⟩) := by
  constructor
  · intro h
    unfold calculate_greeks
    rw [if_pos h]
  · intro h
    unfold calculate_greeks
    rw [if_neg (not_le.mpr h)]
    rfl

theorem calculate_greeks_scaling_witness :
    (0 : ℝ) < 1 ∧ calculate_greeks 1 1 1 0 1 "call" =
      ⟨delta_raw 1 1 1 0 1 "call", gamma_raw 1 1 1 0 1,
        theta_raw 1 1 1 0 1 "call" / 365, vega_raw 1 1 1 0 1 / 100,
        rho_raw 1 1 1 0 1 "call" / 100⟩ :=
  ⟨one_pos, (calculate_greeks_scaling 1 1 1 0 1 "call").2 one_pos⟩

lemma pathsLoop_col_zero (S r sigma : ℝ) (z : ℕ → ℕ → ℝ) (g : ℕ → ℕ → ℝ)
    (n j : ℕ) : pathsLoop S r sigma z g n j 0 = g j 0 := by
  induction n with
  | zero => rfl
  | succ n ih =>
    have h : (0 : ℕ) ≠ n + 1 := by omega
    simp only [pathsLoop, if_neg h]
    exact ih

lemma pathsLoop_stable (S r sigma : ℝ) (z : ℕ → ℕ → ℝ) (g : ℕ → ℕ → ℝ)
    (j : ℕ) : ∀ n t, t ≤ n →
      pathsLoop S r sigma z g n j t = pathsLoop S r sigma z g t j t := by
  intro n
  induction n with
  | zero =>
    intro t ht
    have h : t = 0 := by omega
    rw [h]
  | succ n ih =>
    intro t ht
    rcases Nat.eq_or_lt_of_le ht with h | h
    · rw [h]
    · have ht' : t ≤ n := by omega
      have hne : t ≠ n + 1 := by omega
      calc pathsLoop S r sigma z g (n + 1) j t
          = pathsLoop S r sigma z g n j t := by simp only [pathsLoop, if_neg hne]
        _ = pathsLoop S r sigma z g t j t := ih t ht'

lemma pathsLoop_succ_self (S r sigma : ℝ) (z : ℕ → ℕ → ℝ) (g : ℕ → ℕ → ℝ)
    (n j : ℕ) :
    pathsLoop S r sigma z g (n + 1) j (n + 1)
      = pathsLoop S r sigma z g n j n *
        Real.exp ((r - sigma ^ 2 / 2) * (1 / 252) +
          sigma * Real.sqrt (1 / 252) * z (n + 1) j) := by
  simp [pathsLoop]

/-- C5: `monte_carlo_price_paths` returns an `M × days` grid whose column 0 is
S in every trial, and whose column t (1 ≤ t < days) is column t-1 multiplied
elementwise by `exp((r - sigma^2/2)*dt + sigma*sqrt(dt)*z)` with the fixed
daily step dt = 1/252 and a fresh standard-normal vector per column —
day-by-day compounding, not a closed-form terminal draw. -/
theorem monte_carlo_price_paths_shape (S r sigma : ℝ) (days M : ℕ)
    (z : ℕ → ℕ → ℝ) (hdays : 1 ≤ days) (hM : 1 ≤ M) :
    (monte_carlo_price_paths S r sigma days M z).length = M ∧
    (∀ j, j < M →
      ((monte_carlo_price_paths S r sigma days M z).getD j []).length = days) ∧
    (∀ j, j < M →
      ((monte_carlo_price_paths S r sigma days M z).getD j []).getD 0 0 = S) ∧
    (∀ j, j < M → ∀ t, 1 ≤ t → t < days →
      ((monte_carlo_price_paths S r sigma days M z).getD j []).getD t 0 =
        ((monte_carlo_price_paths S r sigma days M z).getD j []).getD (t - 1) 0 *
          Real.exp ((r - sigma ^ 2 / 2) * (1 / 252) +
            sigma * Real.sqrt (1 / 252) * z t j)) := by
  have hrow : ∀ j, j < M →
      (monte_carlo_price_paths S r sigma days M z).getD j []
        = (List.range days).map
            (fun t => pathsLoop S r sigma z (pathsInit S) (days - 1) j t) := by
    intro j hj
    have hl : j < (monte_carlo_price_paths S r sigma days M z).length := by
      simpa [monte_carlo_price_paths] using hj
    rw [List.getD_eq_getElem _ _ hl]
    unfold monte_carlo_price_paths
    simp
  have hentry : ∀ j, j < M → ∀ t, t < days →
      ((monte_carlo_price_paths S r sigma days M z).getD j []).getD t 0
        = pathsLoop S r sigma z (pathsInit S) (days - 1) j t := by
    intro j hj t ht
    rw [hrow j hj]
    have hl : t < ((List.range days).map
        (fun t => pathsLoop S r sigma z (pathsInit S) (days - 1) j t)).length := by
      simpa using ht
    rw [List.getD_eq_getElem _ _ hl]
    simp
  refine ⟨by simp [monte_carlo_price_paths], fun j hj => by rw [hrow j hj]; simp,
    fun j hj => ?_, fun j hj t ht1 ht2 => ?_⟩
  · rw [hentry j hj 0 (by omega), pathsLoop_col_zero]
    rfl
  · obtain ⟨s, rfl⟩ : ∃ s, t = s + 1 := ⟨t - 1, by omega⟩
    rw [hentry j hj (s + 1) ht2]
    have hs : s + 1 - 1 = s := by omega
    rw [hs, hentry j hj s (by omega)]
    have h1 : s + 1 ≤ days - 1 := by omega
    have h2 : s ≤ days - 1 := by omega
    rw [pathsLoop_stable S r sigma z (pathsInit S) j (days - 1) (s + 1) h1,
      pathsLoop_stable S r sigma z (pathsInit S) j (days - 1) s h2,
      pathsLoop_succ_self]

theorem monte_carlo_price_paths_shape_witness :
    1 ≤ 1 ∧
      ((monte_carlo_price_paths 1 0 1 1 1 (fun _ _ => 0)).getD 0 []).getD 0 0 = 1 :=
  ⟨le_refl 1,
    (monte_carlo_price_paths_shape 1 0 1 1 1 (fun _ _ => 0)
      (le_refl 1) (le_refl 1)).2.2.1 0 Nat.zero_lt_one⟩

/-- C8 (code behavior): neither Monte Carlo routine takes a seed or random
source parameter — both read numpy's global stream.  Making that global state
explicit, two successive calls of `monte_carlo_simulation` with identical
numeric inputs return different results, because the second call reads the
stream at the position where the first call left it. -/
theorem monte_carlo_simulation_global_state_dependence :
    (monte_carlo_simulation_global 1 1 0 1 1 (fun n => (n : ℝ)) 0).1 ≠
      (monte_carlo_simulation_global 1 1 0 1 1 (fun n => (n : ℝ))
        (monte_carlo_simulation_global 1 1 0 1 1 (fun n => (n : ℝ)) 0).2).1 := by
  have h1 : ¬ (1 : ℝ) ≤ 0 := by norm_num
  have hr : List.range 1 = [0] := rfl
  simp only [monte_carlo_simulation_global, if_neg h1, hr,
    List.map_cons, List.map_nil]
  intro hcontra
  rw [List.cons.injEq] at hcontra
  obtain ⟨he, -⟩ := hcontra
  rw [Real.sqrt_one] at he
  norm_num [Real.exp_eq_exp] at he

lemma payoff_of_ne_call (K : ℝ) (option_type : String)
    (h : option_type ≠ "call") : payoff K option_type = payoff K "put" := by
  funext sp
  unfold payoff
  rw [if_neg h, if_neg (by decide : ¬ ("put" : String) = "call")]

lemma binVals_of_ne_call (S K T r sigma : ℝ) (N : ℕ) (option_type : String)
    (h : option_type ≠ "call") :
    ∀ k, binVals S K T r sigma N option_type k = binVals S K T r sigma N "put" k := by
  intro k
  induction k with
  | zero =>
    funext i
    show payoff K option_type _ = payoff K "put" _
    rw [payoff_of_ne_call K option_type h]
  | succ k ih =>
    funext i
    show binStep S K T r sigma N option_type (N - (k + 1))
        (binVals S K T r sigma N option_type k) i = _
    unfold binStep
    rw [ih, payoff_of_ne_call K option_type h]
    rfl

/-- C10: any `option_type` other than the exact string "call" — including
"Call" or arbitrary junk — is silently priced as a put by `black_scholes`,
`binomial_tree_american` and `calculate_greeks`; no validation or error path
exists. -/
theorem unrecognized_option_type_priced_as_put (S K T r sigma : ℝ) (N : ℕ)
    (option_type : String) (h : option_type ≠ "call") :
    black_scholes S K T r sigma option_type = black_scholes S K T r sigma "put" ∧
    binomial_tree_american S K T r sigma N option_type
      = binomial_tree_american S K T r sigma N "put" ∧
    calculate_greeks S K T r sigma option_type
      = calculate_greeks S K T r sigma "put" := by
  have hput : ¬ ("put" : String) = "call" := by decide
  refine ⟨?_, ?_, ?_⟩
  · unfold black_scholes
    rw [payoff_of_ne_call K option_type h, if_neg h, if_neg hput]
  · unfold binomial_tree_american
    rw [payoff_of_ne_call K option_type h,
      binVals_of_ne_call S K T r sigma N option_type h N]
  · unfold calculate_greeks
    by_cases hc : T ≤ 0
    · rw [if_pos hc, if_pos hc]
    · rw [if_neg hc, if_neg hc]
      simp only [if_neg h, if_neg hput]

theorem unrecognized_option_type_witness :
    ("Call" : String) ≠ "call" ∧
      black_scholes 1 1 1 0 1 "Call" = black_scholes 1 1 1 0 1 "put" :=
  ⟨by decide, (unrecognized_option_type_priced_as_put 1 1 1 0 1 1 "Call" (by decide)).1⟩

/-- C9 counterexample: on the unparseable string "garbage",
`days_to_expiration` does not fail — the bare `except:` inside the function
swallows the parse error and the function itself returns the plain value 0. -/
theorem days_to_expiration_no_error_cex :
    parseDate "garbage" = none ∧ days_to_expiration "garbage" (2026, 10, 12) = 0 := by
  constructor <;> decide

/-- C9 amended: for every expiration string whose parse fails,
`days_to_expiration` itself catches the failure and returns 0; no FormatError
propagates, and no substitution is left to the caller. -/
theorem days_to_expiration_swallows (s : String) (today : ℕ × ℕ × ℕ)
    (h : parseDate s = none) : days_to_expiration s today = 0 := by
  unfold days_to_expiration
  rw [h]

theorem days_to_expiration_swallows_witness :
    parseDate "2026-13-01" = none ∧ days_to_expiration "2026-13-01" (2026, 1, 1) = 0 :=
  ⟨by decide, days_to_expiration_swallows "2026-13-01" (2026, 1, 1) (by decide)⟩

end OptionsPricing
